import Mathlib

/-!
Shallow embedding of the countries-api refresh-and-reconcile pipeline.

Source files embedded:
* `app/services/countries_service.py` — `CountriesAPIService._process_country_data`
  and the processing loop of `fetch_countries` (the Source Normalizer / Country
  Fetcher).
* `app/services/country_service.py` — `CountryService.refresh_countries_data`,
  `_process_country_for_db`, `_update_country`, `delete_country_by_name`
  (the Reconciliation Engine against the Catalog Store).

Modelling conventions:
* Python floats are embedded as `ℚ`; populations as `ℤ`.
* The SQLAlchemy session (`sessionmaker(autocommit=False, autoflush=False)`) is
  embedded explicitly: queries issued during one refresh run against the
  committed column values (the snapshot at the start of the refresh), while
  attribute updates accumulate on the in-memory objects and `db.add` objects
  stay pending and invisible to queries until commit.
* `random.uniform(1000, 2000)` and `datetime.utcnow()` are abstracted as
  injected sources `ms : Nat → ℚ` and `ts : Nat → Nat`, indexed by the
  position of the record in the fetched list.
* Remote fetches are embedded by their results (`Except String _`), and the
  transactional commit by a result `Except String Unit`; exception messages
  are plain strings, as in the Python code, where `refresh_countries_data`
  re-raises every failure wrapped as
  `Exception("Failed to refresh countries data: " + str(e))`.
-/

namespace CountriesApi

/-! ## Source Normalizer (`CountriesAPIService._process_country_data`) -/

/-- One element of a `currencies` list in a raw record: either a structured
object (a dict whose `code` field may be present or absent) or a bare string. -/
inductive CurrencyDescriptor where
  | obj (code : Option String)
  | str (s : String)
deriving DecidableEq

/-- The shape of the `currencies` field of a raw record.  `arr` is a list of
descriptors; `scalar` is a bare string supplied instead of a list (Python then
indexes into the string, so `currencies[0]` is its first character);
`raising` stands for a non-empty mapping-shaped value, for which Python's
`currencies[0]` raises `KeyError` and the record is dropped by the
`except` branch. -/
inductive CurrencyField where
  | arr (xs : List CurrencyDescriptor)
  | scalar (s : String)
  | raising
deriving DecidableEq

/-- A raw country record as consumed by `_process_country_data`:
`none` fields are absent keys of the JSON object. -/
structure RawCountry where
  name : Option String
  capital : Option String
  region : Option String
  population : Option Int
  currencies : Option CurrencyField
  flag : Option String
deriving DecidableEq

/-- The normalized country dict returned by `_process_country_data`. -/
structure ProcessedCountry where
  name : String
  capital : Option String
  region : Option String
  population : Int
  currency_code : Option String
  flag_url : Option String
deriving DecidableEq

/-- Python `s[0]` on a string: the one-character string holding its first
character. -/
def strIndex0 (s : String) : String :=
  ⟨s.data.take 1⟩

/-- Python `str.lower()`, written over the character list (same function as
`String.toLower`). -/
def pyLower (s : String) : String :=
  ⟨s.data.map Char.toLower⟩

/-- Python `str.upper()`, written over the character list (same function as
`String.toUpper`); used to state case-normalization properties. -/
def pyUpper (s : String) : String :=
  ⟨s.data.map Char.toUpper⟩

/-- The currency-extraction block of `_process_country_data`:
`currencies = country_data.get("currencies", [])`; when truthy and non-empty,
inspect `currencies[0]` (a dict yields its optional `code` field, a string
yields itself; indexing a scalar string yields its first character; indexing a
non-empty mapping raises, signalled by `.error ()`). -/
def extractCurrencyCode : Option CurrencyField → Except Unit (Option String)
  | none => .ok none
  | some (.arr []) => .ok none
  | some (.arr (.obj c :: _)) => .ok c
  | some (.arr (.str s :: _)) => .ok (some s)
  | some (.scalar s) => .ok (if s = "" then none else some (strIndex0 s))
  | some .raising => .error ()

/-- `CountriesAPIService._process_country_data`: build the normalized dict,
returning `none` (Python `None`) when processing raised. -/
def _process_country_data (r : RawCountry) : Option ProcessedCountry :=
  match extractCurrencyCode r.currencies with
  | .error _ => none
  | .ok cc =>
      some { name := r.name.getD ""
             capital := r.capital
             region := r.region
             population := r.population.getD 0
             currency_code := cc
             flag_url := r.flag }

/-- The processing loop of `fetch_countries`: append each processed record
when it is truthy (a returned dict is always truthy; only `None` is skipped). -/
def processCountries (raw : List RawCountry) : List ProcessedCountry :=
  raw.filterMap _process_country_data

/-! ## Reconciliation Engine (`CountryService`) -/

/-- A persisted `Country` row (`app/models/country.py`): surrogate `id`,
`name` (identity), the mutable data columns, and `last_refreshed_at`. -/
structure CatalogEntry where
  id : Nat
  name : String
  capital : Option String
  region : Option String
  population : Int
  currency_code : Option String
  exchange_rate : Option ℚ
  estimated_gdp : Option ℚ
  flag_url : Option String
  last_refreshed_at : Nat
deriving DecidableEq

/-- The dict built by `_process_country_for_db`, insertion order of its keys
matching the Python literal. -/
structure CountryRecord where
  name : String
  capital : Option String
  region : Option String
  population : Int
  currency_code : Option String
  exchange_rate : Option ℚ
  estimated_gdp : Option ℚ
  flag_url : Option String
  last_refreshed_at : Nat
deriving DecidableEq

/-- Python dict lookup on the rates mapping (keys are unique in a dict, so
first-match lookup is exact). -/
def dictLookup (rates : List (String × ℚ)) (k : String) : Option ℚ :=
  match rates with
  | [] => none
  | (k', v) :: rest => if k' = k then some v else dictLookup rest k

/-- The rate-resolution condition of `_process_country_for_db`:
`if currency_code and currency_code in exchange_rates:` — the code must be
non-null and truthy (non-empty) and a key of the rates dict; then
`exchange_rate = exchange_rates[currency_code]` regardless of its sign. -/
def resolvedRate (cc : Option String) (rates : List (String × ℚ)) : Option ℚ :=
  match cc with
  | none => none
  | some code => if code = "" then none else dictLookup rates code

/-- `CountryService._process_country_for_db`: resolve the exchange rate, then
`if exchange_rate and exchange_rate > 0:` compute
`(population * random_multiplier) / exchange_rate` (the multiplier `m` is the
injected value of `random.uniform(1000, 2000)`), defaulting `estimated_gdp`
to `0`; the returned dict stores `estimated_gdp if estimated_gdp > 0 else
None` and the timestamp `now` of `datetime.utcnow()`. -/
def _process_country_for_db (c : ProcessedCountry) (rates : List (String × ℚ))
    (m : ℚ) (now : Nat) : CountryRecord :=
  let exchange_rate := resolvedRate c.currency_code rates
  let estimated_gdp : ℚ :=
    match exchange_rate with
    | some r => if 0 < r then ((c.population : ℚ) * m) / r else 0
    | none => 0
  { name := c.name
    capital := c.capital
    region := c.region
    population := c.population
    currency_code := c.currency_code
    exchange_rate := exchange_rate
    estimated_gdp := if 0 < estimated_gdp then some estimated_gdp else none
    flag_url := c.flag_url
    last_refreshed_at := now }

/-- One `setattr(existing_country, key, value)` of `_update_country`, guarded
by `hasattr(existing_country, key)`: an unknown key leaves the row alone. -/
def setattrField (e : CatalogEntry) (k : String) (row : CountryRecord) : CatalogEntry :=
  if k = "name" then { e with name := row.name }
  else if k = "capital" then { e with capital := row.capital }
  else if k = "region" then { e with region := row.region }
  else if k = "population" then { e with population := row.population }
  else if k = "currency_code" then { e with currency_code := row.currency_code }
  else if k = "exchange_rate" then { e with exchange_rate := row.exchange_rate }
  else if k = "estimated_gdp" then { e with estimated_gdp := row.estimated_gdp }
  else if k = "flag_url" then { e with flag_url := row.flag_url }
  else if k = "last_refreshed_at" then { e with last_refreshed_at := row.last_refreshed_at }
  else e

/-- The keys of the dict returned by `_process_country_for_db`, in insertion
order — the iteration order of `new_data.items()`. -/
def newDataKeys : List String :=
  ["name", "capital", "region", "population", "currency_code",
   "exchange_rate", "estimated_gdp", "flag_url", "last_refreshed_at"]

/-- `CountryService._update_country`: `for key, value in new_data.items():
if hasattr(existing_country, key): setattr(existing_country, key, value)`. -/
def _update_country (e : CatalogEntry) (row : CountryRecord) : CatalogEntry :=
  newDataKeys.foldl (fun acc k => setattrField acc k row) e

/-- Case folding used by every identity comparison
(`func.lower(Country.name) == func.lower(...)`). -/
def nameFold (s : String) : String := pyLower s

/-- A catalog row as seen by the session during one refresh: `origName` is the
committed column value (what SQL `WHERE` filters on — the session has
`autoflush=False`, so pending changes are not flushed before queries), and
`cur` is the in-memory mapped object carrying pending attribute updates. -/
structure SessionEntry where
  origName : String
  cur : CatalogEntry
deriving DecidableEq

/-- The committed database: the `countries` table and the next autoincrement
id. -/
structure DB where
  store : List CatalogEntry
  nextId : Nat
deriving DecidableEq

/-- Open a session over the committed table: every row's queried column value
and in-memory object agree initially. -/
def mkSession (db : DB) : List SessionEntry :=
  db.store.map (fun e => ⟨e.name, e⟩)

/-- The in-loop state of `refresh_countries_data`: the session rows, the
pending `db.add`ed objects (invisible to queries until commit), and the two
counters. -/
structure LoopState where
  sess : List SessionEntry
  news : List CountryRecord
  updated : Nat
  added : Nat
deriving DecidableEq

/-- Mutate the first session row whose committed name case-insensitively
matches the record's (the row returned by `.first()`); the committed column
value is unchanged because nothing is flushed. -/
def applyUpdate (row : CountryRecord) : List SessionEntry → List SessionEntry
  | [] => []
  | se :: rest =>
      if nameFold se.origName = nameFold row.name then
        ⟨se.origName, _update_country se.cur row⟩ :: rest
      else se :: applyUpdate row rest

/-- One iteration of the `for country_data in countries_data:` loop:
process the record, query for an existing row (against committed names),
and either update it or `db.add` a new `Country`. -/
def refreshStep (rates : List (String × ℚ)) (m : ℚ) (now : Nat)
    (st : LoopState) (c : ProcessedCountry) : LoopState :=
  let row := _process_country_for_db c rates m now
  if st.sess.any (fun se => nameFold se.origName == nameFold row.name) then
    { st with sess := applyUpdate row st.sess, updated := st.updated + 1 }
  else
    { st with news := st.news ++ [row], added := st.added + 1 }

/-- The whole per-country loop; `i` indexes into the injected randomness and
clock sources. -/
def refreshLoop (rates : List (String × ℚ)) (ms : Nat → ℚ) (ts : Nat → Nat) :
    Nat → List ProcessedCountry → LoopState → LoopState
  | _, [], st => st
  | i, c :: cs, st => refreshLoop rates ms ts (i + 1) cs (refreshStep rates (ms i) (ts i) st c)

/-- Materialise a pending `Country(**processed_country)` at flush time with
its autoincrement id. -/
def toEntry (idv : Nat) (row : CountryRecord) : CatalogEntry :=
  { id := idv
    name := row.name
    capital := row.capital
    region := row.region
    population := row.population
    currency_code := row.currency_code
    exchange_rate := row.exchange_rate
    estimated_gdp := row.estimated_gdp
    flag_url := row.flag_url
    last_refreshed_at := row.last_refreshed_at }

/-- Assign consecutive autoincrement ids to the pending inserts. -/
def assignIds : Nat → List CountryRecord → List CatalogEntry
  | _, [] => []
  | n, row :: rows => toEntry n row :: assignIds (n + 1) rows

/-- `db.commit()` on success: flush the pending attribute updates and inserts
into the table. -/
def commitDB (db : DB) (st : LoopState) : DB :=
  { store := st.sess.map (fun se => se.cur) ++ assignIds db.nextId st.news
    nextId := db.nextId + st.news.length }

/-- The wrapping applied by the `except` branch of `refresh_countries_data`:
`raise Exception(f"Failed to refresh countries data: {str(e)}")`. -/
def refreshTag (msg : String) : String :=
  "Failed to refresh countries data: " ++ msg

/-- `CountryService.refresh_countries_data`, with the two remote fetches and
the commit embedded by their results.  A failed fetch or commit lands in the
`except` branch: `db.rollback()` (the committed table is untouched) and the
wrapped exception is re-raised.  Only a successful commit replaces the
committed table.  Returns the committed database and either the
`(countries_updated, countries_added)` pair or the raised message. -/
def refresh_countries_data
    (countriesResult : Except String (List ProcessedCountry))
    (ratesResult : Except String (List (String × ℚ)))
    (ms : Nat → ℚ) (ts : Nat → Nat)
    (commitResult : Except String Unit) (db : DB) :
    DB × Except String (Nat × Nat) :=
  match countriesResult with
  | .error msg => (db, .error (refreshTag msg))
  | .ok countries =>
    match ratesResult with
    | .error msg => (db, .error (refreshTag msg))
    | .ok rates =>
      let st := refreshLoop rates ms ts 0 countries ⟨mkSession db, [], 0, 0⟩
      match commitResult with
      | .ok _ => (commitDB db st, .ok (st.updated, st.added))
      | .error msg => (db, .error (refreshTag msg))

/-- Remove the first row satisfying the predicate (`db.delete(country)` on
the object `.first()` returned). -/
def eraseFirstMatch (p : CatalogEntry → Bool) : List CatalogEntry → List CatalogEntry
  | [] => []
  | e :: es => if p e then es else e :: eraseFirstMatch p es

/-- `CountryService.delete_country_by_name`: case-insensitive `.first()`
lookup, then `db.delete(country); db.commit()`; returns whether a row was
deleted. -/
def delete_country_by_name (db : DB) (nm : String) : DB × Bool :=
  match db.store.find? (fun e => nameFold e.name == nameFold nm) with
  | some _ =>
      ({ db with store := eraseFirstMatch (fun e => nameFold e.name == nameFold nm) db.store }, true)
  | none => (db, false)

/-! ## Helper lemmas -/

theorem update_country_eq (e : CatalogEntry) (row : CountryRecord) :
    _update_country e row =
      { id := e.id, name := row.name, capital := row.capital, region := row.region,
        population := row.population, currency_code := row.currency_code,
        exchange_rate := row.exchange_rate, estimated_gdp := row.estimated_gdp,
        flag_url := row.flag_url, last_refreshed_at := row.last_refreshed_at } := rfl

theorem row_of_processed (c : ProcessedCountry) (rates : List (String × ℚ)) (m : ℚ) (now : Nat) :
    (_process_country_for_db c rates m now).name = c.name ∧
    (_process_country_for_db c rates m now).population = c.population ∧
    (_process_country_for_db c rates m now).currency_code = c.currency_code :=
  ⟨rfl, rfl, rfl⟩

theorem applyUpdate_origNames (row : CountryRecord) (sess : List SessionEntry) :
    (applyUpdate row sess).map (fun se => se.origName) = sess.map (fun se => se.origName) := by
  induction sess with
  | nil => rfl
  | cons se rest ih =>
      by_cases h : nameFold se.origName = nameFold row.name
      · simp [applyUpdate, h]
      · simp [applyUpdate, h, ih]

theorem applyUpdate_sessFolds (row : CountryRecord) (sess : List SessionEntry) :
    (applyUpdate row sess).map (fun se => nameFold se.origName) =
      sess.map (fun se => nameFold se.origName) := by
  induction sess with
  | nil => rfl
  | cons se rest ih =>
      by_cases h : nameFold se.origName = nameFold row.name
      · simp [applyUpdate, h]
      · simp [applyUpdate, h, ih]

theorem applyUpdate_mem_of_ne (row : CountryRecord) (sess : List SessionEntry)
    (se : SessionEntry) (hmem : se ∈ sess)
    (hne : nameFold se.origName ≠ nameFold row.name) :
    se ∈ applyUpdate row sess := by
  induction sess with
  | nil => cases hmem
  | cons hd rest ih =>
      by_cases h : nameFold hd.origName = nameFold row.name
      · simp only [applyUpdate, if_pos h]
        rcases List.mem_cons.mp hmem with heq | htl
        · exact absurd (heq ▸ h) hne
        · exact List.mem_cons_of_mem _ htl
      · simp only [applyUpdate, if_neg h]
        rcases List.mem_cons.mp hmem with heq | htl
        · exact heq ▸ List.mem_cons_self _ _
        · exact List.mem_cons_of_mem _ (ih htl)

theorem applyUpdate_curFold (row : CountryRecord) (sess : List SessionEntry)
    (hinv : ∀ se ∈ sess, nameFold se.cur.name = nameFold se.origName) :
    ∀ se ∈ applyUpdate row sess, nameFold se.cur.name = nameFold se.origName := by
  induction sess with
  | nil => intro se h; cases h
  | cons hd rest ih =>
      by_cases h : nameFold hd.origName = nameFold row.name
      · simp only [applyUpdate, if_pos h]
        intro se hse
        rcases List.mem_cons.mp hse with heq | htl
        · subst heq
          simp [update_country_eq, h]
        · exact hinv se (List.mem_cons_of_mem _ htl)
      · simp only [applyUpdate, if_neg h]
        intro se hse
        rcases List.mem_cons.mp hse with heq | htl
        · exact heq ▸ hinv hd (List.mem_cons_self _ _)
        · exact ih (fun x hx => hinv x (List.mem_cons_of_mem _ hx)) se htl

theorem step_sessOrig (rates : List (String × ℚ)) (m : ℚ) (now : Nat)
    (st : LoopState) (c : ProcessedCountry) :
    (refreshStep rates m now st c).sess.map (fun se => se.origName) =
      st.sess.map (fun se => se.origName) := by
  unfold refreshStep
  by_cases h : st.sess.any
      (fun se => nameFold se.origName == nameFold (_process_country_for_db c rates m now).name)
  · simp [h, applyUpdate_origNames]
  · simp [h]

theorem step_counters (rates : List (String × ℚ)) (m : ℚ) (now : Nat)
    (st : LoopState) (c : ProcessedCountry) :
    (refreshStep rates m now st c).updated + (refreshStep rates m now st c).added =
      st.updated + st.added + 1 := by
  unfold refreshStep
  by_cases h : st.sess.any
      (fun se => nameFold se.origName == nameFold (_process_country_for_db c rates m now).name)
  · simp [h]; omega
  · simp [h]; omega

theorem loop_counters (rates : List (String × ℚ)) (ms : Nat → ℚ) (ts : Nat → Nat)
    (cs : List ProcessedCountry) :
    ∀ (i : Nat) (st : LoopState),
      (refreshLoop rates ms ts i cs st).updated + (refreshLoop rates ms ts i cs st).added =
        st.updated + st.added + cs.length := by
  induction cs with
  | nil => intro i st; simp [refreshLoop]
  | cons c cs ih =>
      intro i st
      have h1 := step_counters rates (ms i) (ts i) st c
      have h2 := ih (i + 1) (refreshStep rates (ms i) (ts i) st c)
      simp only [refreshLoop, List.length_cons]
      omega

theorem loop_sessOrig (rates : List (String × ℚ)) (ms : Nat → ℚ) (ts : Nat → Nat)
    (cs : List ProcessedCountry) :
    ∀ (i : Nat) (st : LoopState),
      (refreshLoop rates ms ts i cs st).sess.map (fun se => se.origName) =
        st.sess.map (fun se => se.origName) := by
  induction cs with
  | nil => intro i st; rfl
  | cons c cs ih =>
      intro i st
      have h2 := ih (i + 1) (refreshStep rates (ms i) (ts i) st c)
      simp only [refreshLoop]
      rw [h2, step_sessOrig]

theorem step_news (rates : List (String × ℚ)) (m : ℚ) (now : Nat)
    (st : LoopState) (c : ProcessedCountry) :
    (refreshStep rates m now st c).news = st.news ∨
      (refreshStep rates m now st c).news =
        st.news ++ [_process_country_for_db c rates m now] := by
  unfold refreshStep
  by_cases h : st.sess.any
      (fun se => nameFold se.origName == nameFold (_process_country_for_db c rates m now).name)
  · simp [h]
  · simp [h]

theorem loop_news_mono (rates : List (String × ℚ)) (ms : Nat → ℚ) (ts : Nat → Nat)
    (cs : List ProcessedCountry) :
    ∀ (i : Nat) (st : LoopState) (row : CountryRecord),
      row ∈ st.news → row ∈ (refreshLoop rates ms ts i cs st).news := by
  induction cs with
  | nil => intro i st row h; exact h
  | cons c cs ih =>
      intro i st row h
      refine ih (i + 1) _ row ?_
      rcases step_news rates (ms i) (ts i) st c with hn | hn
      · rw [hn]; exact h
      · rw [hn]; exact List.mem_append_left _ h

theorem step_news_counter (rates : List (String × ℚ)) (m : ℚ) (now : Nat)
    (st : LoopState) (c : ProcessedCountry) :
    (refreshStep rates m now st c).news.length + st.added =
      st.news.length + (refreshStep rates m now st c).added := by
  unfold refreshStep
  by_cases h : st.sess.any
      (fun se => nameFold se.origName == nameFold (_process_country_for_db c rates m now).name)
  · simp [h]
  · simp [h]; omega

theorem loop_news_counter (rates : List (String × ℚ)) (ms : Nat → ℚ) (ts : Nat → Nat)
    (cs : List ProcessedCountry) :
    ∀ (i : Nat) (st : LoopState),
      (refreshLoop rates ms ts i cs st).news.length + st.added =
        st.news.length + (refreshLoop rates ms ts i cs st).added := by
  induction cs with
  | nil => intro i st; rfl
  | cons c cs ih =>
      intro i st
      have h1 := step_news_counter rates (ms i) (ts i) st c
      have h2 := ih (i + 1) (refreshStep rates (ms i) (ts i) st c)
      simp only [refreshLoop]
      omega

theorem loop_frame (rates : List (String × ℚ)) (ms : Nat → ℚ) (ts : Nat → Nat)
    (cs : List ProcessedCountry) :
    ∀ (i : Nat) (st : LoopState) (se : SessionEntry), se ∈ st.sess →
      (∀ c ∈ cs, nameFold c.name ≠ nameFold se.origName) →
      se ∈ (refreshLoop rates ms ts i cs st).sess := by
  induction cs with
  | nil => intro i st se h _; exact h
  | cons c cs ih =>
      intro i st se hmem habs
      refine ih (i + 1) _ se ?_ (fun c' hc' => habs c' (List.mem_cons_of_mem _ hc'))
      unfold refreshStep
      by_cases h : st.sess.any
          (fun x => nameFold x.origName == nameFold (_process_country_for_db c rates (ms i) (ts i)).name)
      · simp only [h, if_pos]
        refine applyUpdate_mem_of_ne _ _ _ hmem ?_
        rw [(row_of_processed c rates (ms i) (ts i)).1]
        exact fun hcontra => habs c (List.mem_cons_self _ _) hcontra.symm
      · simp only [h]
        simpa using hmem

theorem loop_curFold (rates : List (String × ℚ)) (ms : Nat → ℚ) (ts : Nat → Nat)
    (cs : List ProcessedCountry) :
    ∀ (i : Nat) (st : LoopState),
      (∀ se ∈ st.sess, nameFold se.cur.name = nameFold se.origName) →
      ∀ se ∈ (refreshLoop rates ms ts i cs st).sess,
        nameFold se.cur.name = nameFold se.origName := by
  induction cs with
  | nil => intro i st h; exact h
  | cons c cs ih =>
      intro i st hinv
      refine ih (i + 1) _ ?_
      unfold refreshStep
      by_cases h : st.sess.any
          (fun x => nameFold x.origName == nameFold (_process_country_for_db c rates (ms i) (ts i)).name)
      · simp only [h, if_pos]
        exact applyUpdate_curFold _ _ hinv
      · simp only [h]
        simpa using hinv

theorem assignIds_names (news : List CountryRecord) :
    ∀ n : Nat, (assignIds n news).map (fun e => e.name) = news.map (fun row => row.name) := by
  induction news with
  | nil => intro n; rfl
  | cons row rows ih => intro n; simp [assignIds, toEntry, ih]

theorem commit_store_names (db : DB) (st : LoopState) :
    (commitDB db st).store.map (fun e => e.name) =
      st.sess.map (fun se => se.cur.name) ++ st.news.map (fun row => row.name) := by
  simp [commitDB, assignIds_names]

theorem step_sessFolds (rates : List (String × ℚ)) (m : ℚ) (now : Nat)
    (st : LoopState) (c : ProcessedCountry) :
    (refreshStep rates m now st c).sess.map (fun se => nameFold se.origName) =
      st.sess.map (fun se => nameFold se.origName) := by
  have h := congrArg (List.map nameFold) (step_sessOrig rates m now st c)
  simpa [List.map_map, Function.comp] using h

theorem loop_sessFolds (rates : List (String × ℚ)) (ms : Nat → ℚ) (ts : Nat → Nat)
    (cs : List ProcessedCountry) (i : Nat) (st : LoopState) :
    (refreshLoop rates ms ts i cs st).sess.map (fun se => nameFold se.origName) =
      st.sess.map (fun se => nameFold se.origName) := by
  have h := congrArg (List.map nameFold) (loop_sessOrig rates ms ts cs i st)
  simpa [List.map_map, Function.comp] using h

theorem step_found (rates : List (String × ℚ)) (m : ℚ) (now : Nat)
    (st : LoopState) (c : ProcessedCountry)
    (h : nameFold c.name ∈ st.sess.map (fun se => nameFold se.origName)) :
    (refreshStep rates m now st c).updated = st.updated + 1 ∧
    (refreshStep rates m now st c).added = st.added ∧
    (refreshStep rates m now st c).news = st.news := by
  have hany : st.sess.any
      (fun se => nameFold se.origName == nameFold (_process_country_for_db c rates m now).name) = true := by
    rw [List.any_eq_true]
    rcases List.mem_map.mp h with ⟨se, hse, heq⟩
    refine ⟨se, hse, ?_⟩
    rw [(row_of_processed c rates m now).1]
    exact beq_iff_eq.mpr heq
  unfold refreshStep
  simp [hany]

theorem loop_all_found (rates : List (String × ℚ)) (ms : Nat → ℚ) (ts : Nat → Nat)
    (cs : List ProcessedCountry) :
    ∀ (i : Nat) (st : LoopState),
      (∀ c ∈ cs, nameFold c.name ∈ st.sess.map (fun se => nameFold se.origName)) →
      (refreshLoop rates ms ts i cs st).updated = st.updated + cs.length ∧
      (refreshLoop rates ms ts i cs st).added = st.added ∧
      (refreshLoop rates ms ts i cs st).news = st.news := by
  induction cs with
  | nil => intro i st _; exact ⟨rfl, rfl, rfl⟩
  | cons c cs ih =>
      intro i st hall
      have hstep := step_found rates (ms i) (ts i) st c (hall c (List.mem_cons_self _ _))
      have htail : ∀ c' ∈ cs, nameFold c'.name ∈
          (refreshStep rates (ms i) (ts i) st c).sess.map (fun se => nameFold se.origName) := by
        intro c' hc'
        rw [step_sessFolds]
        exact hall c' (List.mem_cons_of_mem _ hc')
      have hrec := ih (i + 1) (refreshStep rates (ms i) (ts i) st c) htail
      simp only [refreshLoop] at *
      refine ⟨?_, ?_, ?_⟩
      · rw [hrec.1, hstep.1, List.length_cons]; omega
      · rw [hrec.2.1, hstep.2.1]
      · rw [hrec.2.2, hstep.2.2]

theorem loop_covers (rates : List (String × ℚ)) (ms : Nat → ℚ) (ts : Nat → Nat)
    (cs : List ProcessedCountry) :
    ∀ (i : Nat) (st : LoopState) (c : ProcessedCountry), c ∈ cs →
      nameFold c.name ∈ st.sess.map (fun se => nameFold se.origName) ∨
      nameFold c.name ∈ (refreshLoop rates ms ts i cs st).news.map (fun row => nameFold row.name) := by
  induction cs with
  | nil => intro i st c h; cases h
  | cons c0 cs ih =>
      intro i st c hc
      rcases List.mem_cons.mp hc with heq | htl
      · subst heq
        by_cases h : st.sess.any
            (fun se => nameFold se.origName == nameFold (_process_country_for_db c rates (ms i) (ts i)).name)
        · left
          rcases List.any_eq_true.mp h with ⟨se, hse, hbeq⟩
          have : nameFold se.origName = nameFold c.name := by
            have := beq_iff_eq.mp hbeq
            rw [(row_of_processed c rates (ms i) (ts i)).1] at this
            exact this
          exact List.mem_map.mpr ⟨se, hse, this⟩
        · right
          have hrow : _process_country_for_db c rates (ms i) (ts i) ∈
              (refreshStep rates (ms i) (ts i) st c).news := by
            unfold refreshStep
            simp [h]
          have hfin := loop_news_mono rates ms ts cs (i + 1)
            (refreshStep rates (ms i) (ts i) st c) _ hrow
          simp only [refreshLoop]
          refine List.mem_map.mpr ⟨_, hfin, ?_⟩
          rw [(row_of_processed c rates (ms i) (ts i)).1]
      · simpa only [refreshLoop, step_sessFolds] using
          ih (i + 1) (refreshStep rates (ms i) (ts i) st c0) c htl

/-- The invariant maintained by the refresh session over one run: in-memory
names agree with committed names up to case folding, committed names are
case-insensitively distinct, pending inserts are case-insensitively distinct,
and no pending insert collides with a committed name. -/
def SessInv (st : LoopState) : Prop :=
  (∀ se ∈ st.sess, nameFold se.cur.name = nameFold se.origName) ∧
  (st.sess.map (fun se => nameFold se.origName)).Nodup ∧
  (st.news.map (fun row => nameFold row.name)).Nodup ∧
  (∀ row ∈ st.news, nameFold row.name ∉ st.sess.map (fun se => nameFold se.origName))

theorem step_inv (rates : List (String × ℚ)) (m : ℚ) (now : Nat)
    (st : LoopState) (c : ProcessedCountry)
    (hinv : SessInv st)
    (hnews : nameFold c.name ∉ st.news.map (fun row => nameFold row.name)) :
    SessInv (refreshStep rates m now st c) := by
  obtain ⟨h1, h2, h3, h4⟩ := hinv
  unfold refreshStep
  by_cases h : st.sess.any
      (fun se => nameFold se.origName == nameFold (_process_country_for_db c rates m now).name)
  · simp only [h, if_pos]
    refine ⟨applyUpdate_curFold _ _ h1, ?_, h3, ?_⟩
    · rw [applyUpdate_sessFolds]; exact h2
    · intro row hrow
      rw [applyUpdate_sessFolds]
      exact h4 row hrow
  · simp only [h, Bool.false_eq_true, if_neg, not_false_iff]
    have hnotin : nameFold (_process_country_for_db c rates m now).name ∉
        st.sess.map (fun se => nameFold se.origName) := by
      intro hmem
      rcases List.mem_map.mp hmem with ⟨se, hse, heq⟩
      have : st.sess.any (fun se => nameFold se.origName ==
          nameFold (_process_country_for_db c rates m now).name) = true :=
        List.any_eq_true.mpr ⟨se, hse, beq_iff_eq.mpr heq⟩
      exact h this
    refine ⟨h1, h2, ?_, ?_⟩
    · rw [List.map_append]
      rw [List.nodup_append]
      refine ⟨h3, List.nodup_singleton _, ?_⟩
      intro a ha hb
      simp only [List.map_cons, List.map_nil, List.mem_singleton] at hb
      subst hb
      rw [(row_of_processed c rates m now).1] at ha
      exact hnews ha
    · intro row hrow
      rcases List.mem_append.mp hrow with hold | hnew
      · exact h4 row hold
      · simp only [List.mem_singleton] at hnew
        subst hnew
        exact hnotin

theorem loop_inv (rates : List (String × ℚ)) (ms : Nat → ℚ) (ts : Nat → Nat)
    (cs : List ProcessedCountry) :
    ∀ (i : Nat) (st : LoopState),
      SessInv st →
      ((cs.map fun c => nameFold c.name).Nodup) →
      (∀ c ∈ cs, nameFold c.name ∉ st.news.map (fun row => nameFold row.name)) →
      SessInv (refreshLoop rates ms ts i cs st) := by
  induction cs with
  | nil => intro i st h _ _; exact h
  | cons c cs ih =>
      intro i st hinv hnodup hnews
      simp only [List.map_cons, List.nodup_cons] at hnodup
      have hstep := step_inv rates (ms i) (ts i) st c hinv (hnews c (List.mem_cons_self _ _))
      refine ih (i + 1) _ hstep hnodup.2 ?_
      intro c' hc' hmem
      rcases step_news rates (ms i) (ts i) st c with hn | hn
      · rw [hn] at hmem
        exact hnews c' (List.mem_cons_of_mem _ hc') hmem
      · rw [hn, List.map_append] at hmem
        rcases List.mem_append.mp hmem with hold | hnew
        · exact hnews c' (List.mem_cons_of_mem _ hc') hold
        · simp only [List.map_cons, List.map_nil, List.mem_singleton] at hnew
          rw [(row_of_processed c rates (ms i) (ts i)).1] at hnew
          exact hnodup.1 (hnew ▸ List.mem_map_of_mem (fun x => nameFold x.name) hc')

theorem mkSession_folds (db : DB) :
    (mkSession db).map (fun se => nameFold se.origName) =
      db.store.map (fun e => nameFold e.name) := by
  simp [mkSession, List.map_map, Function.comp]

theorem mkSession_inv (db : DB)
    (hdb : (db.store.map (fun e => nameFold e.name)).Nodup) :
    SessInv ⟨mkSession db, [], 0, 0⟩ := by
  refine ⟨?_, ?_, ?_, ?_⟩
  · intro se hse
    rcases List.mem_map.mp hse with ⟨e, _, rfl⟩
    rfl
  · simpa [mkSession_folds] using hdb
  · simp
  · simp

theorem assignIds_folds (news : List CountryRecord) :
    ∀ n : Nat, (assignIds n news).map (fun e => nameFold e.name) =
      news.map (fun row => nameFold row.name) := by
  induction news with
  | nil => intro n; rfl
  | cons row rows ih => intro n; simp [assignIds, toEntry, ih]

theorem commit_store_folds (db : DB) (st : LoopState)
    (hcur : ∀ se ∈ st.sess, nameFold se.cur.name = nameFold se.origName) :
    (commitDB db st).store.map (fun e => nameFold e.name) =
      st.sess.map (fun se => nameFold se.origName) ++
        st.news.map (fun row => nameFold row.name) := by
  unfold commitDB
  simp only [List.map_append]
  congr 1
  · rw [List.map_map]
    exact List.map_congr_left (fun se hse => hcur se hse)
  · exact assignIds_folds st.news db.nextId

theorem commit_nodup (db : DB) (st : LoopState) (hinv : SessInv st) :
    ((commitDB db st).store.map (fun e => nameFold e.name)).Nodup := by
  obtain ⟨h1, h2, h3, h4⟩ := hinv
  rw [commit_store_folds db st h1]
  rw [List.nodup_append]
  exact ⟨h2, h3, fun a ha hb => by
    rcases List.mem_map.mp hb with ⟨row, hrow, heq⟩
    exact h4 row hrow (heq ▸ ha)⟩

theorem refreshStep_eq (rates : List (String × ℚ)) (m : ℚ) (now : Nat)
    (st : LoopState) (c : ProcessedCountry) :
    refreshStep rates m now st c =
      if st.sess.any (fun se => nameFold se.origName == nameFold c.name) then
        { st with sess := applyUpdate (_process_country_for_db c rates m now) st.sess,
                  updated := st.updated + 1 }
      else
        { st with news := st.news ++ [_process_country_for_db c rates m now],
                  added := st.added + 1 } := rfl

theorem assignIds_length (news : List CountryRecord) :
    ∀ n : Nat, (assignIds n news).length = news.length := by
  induction news with
  | nil => intro n; rfl
  | cons row rows ih => intro n; simp [assignIds, ih]

theorem loop_sess_length (rates : List (String × ℚ)) (ms : Nat → ℚ) (ts : Nat → Nat)
    (cs : List ProcessedCountry) (i : Nat) (st : LoopState) :
    (refreshLoop rates ms ts i cs st).sess.length = st.sess.length := by
  have h := congrArg List.length (loop_sessOrig rates ms ts cs i st)
  simpa using h

/-! ## Claim theorems -/

/-- C1: every refresh invocation changes the catalog store all-or-nothing:
a failed countries fetch or rates fetch aborts the refresh with the committed
store untouched and the failure's message propagated inside the re-raised
error; a failed commit likewise leaves the store untouched and surfaces the
persistence failure; the store differs from its pre-refresh state only when
both fetches and the commit succeeded. -/
theorem refresh_atomicity
    (cR : Except String (List ProcessedCountry))
    (rR : Except String (List (String × ℚ)))
    (ms : Nat → ℚ) (ts : Nat → Nat) (commitResult : Except String Unit) (db : DB) :
    (∀ msg, (refresh_countries_data cR rR ms ts commitResult db).2 = .error msg →
      (refresh_countries_data cR rR ms ts commitResult db).1 = db) ∧
    (∀ msg, cR = .error msg →
      refresh_countries_data cR rR ms ts commitResult db = (db, .error (refreshTag msg))) ∧
    (∀ cs msg, cR = .ok cs → rR = .error msg →
      refresh_countries_data cR rR ms ts commitResult db = (db, .error (refreshTag msg))) ∧
    (∀ msg, commitResult = .error msg →
      (refresh_countries_data cR rR ms ts commitResult db).1 = db) ∧
    (∀ cs rates msg, cR = .ok cs → rR = .ok rates → commitResult = .error msg →
      refresh_countries_data cR rR ms ts commitResult db = (db, .error (refreshTag msg))) ∧
    ((refresh_countries_data cR rR ms ts commitResult db).1 ≠ db →
      ∃ cs rates u a, cR = .ok cs ∧ rR = .ok rates ∧ commitResult = .ok () ∧
        (refresh_countries_data cR rR ms ts commitResult db).2 = .ok (u, a)) := by
  cases cR with
  | error m0 =>
      refine ⟨fun msg _ => rfl, fun msg h => ?_, fun cs msg h => ?_, fun msg _ => rfl,
        fun cs rates msg h => ?_, fun h => ?_⟩
      · cases h; rfl
      · cases h
      · cases h
      · exact absurd rfl h
  | ok cs0 =>
      cases rR with
      | error m1 =>
          refine ⟨fun msg _ => rfl, fun msg h => ?_, fun cs msg _ h => ?_, fun msg _ => rfl,
            fun cs rates msg _ h => ?_, fun h => ?_⟩
          · cases h
          · cases h; rfl
          · cases h
          · exact absurd rfl h
      | ok rates0 =>
          cases commitResult with
          | error m2 =>
              refine ⟨fun msg _ => rfl, fun msg h => ?_, fun cs msg _ h => ?_, fun msg h => rfl,
                fun cs rates msg _ _ h => ?_, fun h => ?_⟩
              · cases h
              · cases h
              · cases h; rfl
              · exact absurd rfl h
          | ok u =>
              refine ⟨fun msg h => ?_, fun msg h => ?_, fun cs msg _ h => ?_, fun msg h => ?_,
                fun cs rates msg _ _ h => ?_, fun _ => ?_⟩
              · exact absurd h (by simp [refresh_countries_data])
              · cases h
              · cases h
              · cases h
              · cases h
              · exact ⟨cs0, rates0,
                  (refreshLoop rates0 ms ts 0 cs0 ⟨mkSession db, [], 0, 0⟩).updated,
                  (refreshLoop rates0 ms ts 0 cs0 ⟨mkSession db, [], 0, 0⟩).added,
                  rfl, rfl, rfl, rfl⟩

/-- C1 witness: on a concrete one-row store, a failed rates fetch propagates
the tagged fetch error and leaves the store exactly as it was, and a failed
commit likewise surfaces the tagged persistence error with the store
untouched. -/
theorem refresh_atomicity_witness :
    (refresh_countries_data (Except.ok []) (Except.error "Exchange rates API request timed out")
      (fun _ => 1500) (fun _ => 0) (Except.ok ())
      ⟨[⟨1, "Ghana", none, none, 5, none, none, none, none, 0⟩], 2⟩ =
    (⟨[⟨1, "Ghana", none, none, 5, none, none, none, none, 0⟩], 2⟩,
      Except.error (refreshTag "Exchange rates API request timed out"))) ∧
    (refresh_countries_data (Except.ok [⟨"Nigeria", none, none, 7, none, none⟩]) (Except.ok [])
      (fun _ => 1500) (fun _ => 0) (Except.error "commit failed")
      ⟨[⟨1, "Ghana", none, none, 5, none, none, none, none, 0⟩], 2⟩ =
    (⟨[⟨1, "Ghana", none, none, 5, none, none, none, none, 0⟩], 2⟩,
      Except.error (refreshTag "commit failed"))) :=
  ⟨(refresh_atomicity (Except.ok []) (Except.error "Exchange rates API request timed out")
      (fun _ => 1500) (fun _ => 0) (Except.ok ())
      ⟨[⟨1, "Ghana", none, none, 5, none, none, none, none, 0⟩], 2⟩).2.2.1
      [] "Exchange rates API request timed out" rfl rfl,
   (refresh_atomicity (Except.ok [⟨"Nigeria", none, none, 7, none, none⟩]) (Except.ok [])
      (fun _ => 1500) (fun _ => 0) (Except.error "commit failed")
      ⟨[⟨1, "Ghana", none, none, 5, none, none, none, none, 0⟩], 2⟩).2.2.2.2.1
      [⟨"Nigeria", none, none, 7, none, none⟩] [] "commit failed" rfl rfl rfl⟩

/-- C10: a successful refresh over N fetched records returns counters with
`updated + added = N`; each loop step increments exactly one of the two
counters, incrementing `updated` exactly when a case-insensitive name match
exists among the committed rows. -/
theorem refresh_counts_partition (cs : List ProcessedCountry)
    (rates : List (String × ℚ)) (ms : Nat → ℚ) (ts : Nat → Nat) (db : DB) :
    (∃ u a, (refresh_countries_data (.ok cs) (.ok rates) ms ts (.ok ()) db).2 = .ok (u, a) ∧
      u + a = cs.length) ∧
    (∀ (st : LoopState) (c : ProcessedCountry) (m : ℚ) (now : Nat),
      ((refreshStep rates m now st c).updated = st.updated + 1 ∧
        (refreshStep rates m now st c).added = st.added) ∨
      ((refreshStep rates m now st c).updated = st.updated ∧
        (refreshStep rates m now st c).added = st.added + 1)) ∧
    (∀ (st : LoopState) (c : ProcessedCountry) (m : ℚ) (now : Nat),
      ((refreshStep rates m now st c).updated = st.updated + 1 ↔
        st.sess.any (fun se => nameFold se.origName == nameFold c.name) = true)) := by
  refine ⟨?_, ?_, ?_⟩
  · refine ⟨(refreshLoop rates ms ts 0 cs ⟨mkSession db, [], 0, 0⟩).updated,
      (refreshLoop rates ms ts 0 cs ⟨mkSession db, [], 0, 0⟩).added, rfl, ?_⟩
    have h := loop_counters rates ms ts cs 0 ⟨mkSession db, [], 0, 0⟩
    simpa using h
  · intro st c m now
    unfold refreshStep
    by_cases h : st.sess.any
        (fun se => nameFold se.origName == nameFold (_process_country_for_db c rates m now).name)
    · left; simp [h]
    · right; simp [h]
  · intro st c m now
    rw [refreshStep_eq]
    by_cases h : st.sess.any (fun se => nameFold se.origName == nameFold c.name)
    · simp [h]
    · simp [h]

/-- C7: an entry whose case-folded name is absent from the current feed
survives refresh entirely unchanged, and refresh never deletes anything: the
post-refresh store holds exactly the old rows (updated in place) plus the
`added` new ones. -/
theorem refresh_no_tombstone (cs : List ProcessedCountry)
    (rates : List (String × ℚ)) (ms : Nat → ℚ) (ts : Nat → Nat) (db : DB)
    (e : CatalogEntry) (he : e ∈ db.store)
    (habs : ∀ c ∈ cs, nameFold c.name ≠ nameFold e.name) :
    e ∈ ((refresh_countries_data (.ok cs) (.ok rates) ms ts (.ok ()) db).1).store ∧
    (∃ u a, (refresh_countries_data (.ok cs) (.ok rates) ms ts (.ok ()) db).2 = .ok (u, a) ∧
      ((refresh_countries_data (.ok cs) (.ok rates) ms ts (.ok ()) db).1).store.length =
        db.store.length + a) := by
  have hse : (⟨e.name, e⟩ : SessionEntry) ∈ mkSession db :=
    List.mem_map.mpr ⟨e, he, rfl⟩
  have hframe := loop_frame rates ms ts cs 0 ⟨mkSession db, [], 0, 0⟩ ⟨e.name, e⟩ hse habs
  constructor
  · show e ∈ (commitDB db (refreshLoop rates ms ts 0 cs ⟨mkSession db, [], 0, 0⟩)).store
    unfold commitDB
    exact List.mem_append_left _ (List.mem_map.mpr ⟨⟨e.name, e⟩, hframe, rfl⟩)
  · refine ⟨(refreshLoop rates ms ts 0 cs ⟨mkSession db, [], 0, 0⟩).updated,
      (refreshLoop rates ms ts 0 cs ⟨mkSession db, [], 0, 0⟩).added, rfl, ?_⟩
    show (commitDB db (refreshLoop rates ms ts 0 cs ⟨mkSession db, [], 0, 0⟩)).store.length = _
    have hnews := loop_news_counter rates ms ts cs 0 ⟨mkSession db, [], 0, 0⟩
    have hsl := loop_sess_length rates ms ts cs 0 ⟨mkSession db, [], 0, 0⟩
    simp only [commitDB, List.length_append, List.length_map, assignIds_length, mkSession,
      List.length_nil] at hnews hsl ⊢
    omega

/-- C7 witness: a one-entry store whose name is not sighted by a one-record
feed keeps its entry unchanged, and the store grows by exactly the added
record. -/
theorem refresh_no_tombstone_witness :
    (⟨1, "Ghana", none, none, 5, none, none, none, none, 0⟩ : CatalogEntry) ∈
      ((refresh_countries_data (.ok [⟨"Nigeria", none, none, 7, none, none⟩]) (.ok [])
        (fun _ => 1500) (fun _ => 3) (.ok ())
        ⟨[⟨1, "Ghana", none, none, 5, none, none, none, none, 0⟩], 2⟩).1).store ∧
    (∃ u a, (refresh_countries_data (.ok [⟨"Nigeria", none, none, 7, none, none⟩]) (.ok [])
        (fun _ => 1500) (fun _ => 3) (.ok ())
        ⟨[⟨1, "Ghana", none, none, 5, none, none, none, none, 0⟩], 2⟩).2 = .ok (u, a) ∧
      ((refresh_countries_data (.ok [⟨"Nigeria", none, none, 7, none, none⟩]) (.ok [])
        (fun _ => 1500) (fun _ => 3) (.ok ())
        ⟨[⟨1, "Ghana", none, none, 5, none, none, none, none, 0⟩], 2⟩).1).store.length = 1 + a) :=
  refresh_no_tombstone [⟨"Nigeria", none, none, 7, none, none⟩] [] (fun _ => 1500) (fun _ => 3)
    ⟨[⟨1, "Ghana", none, none, 5, none, none, none, none, 0⟩], 2⟩
    ⟨1, "Ghana", none, none, 5, none, none, none, none, 0⟩ (by decide)
    (by intro c hc; simp only [List.mem_singleton] at hc; subst hc; decide)

/-- C2 (amended): when neither the pre-refresh store nor the feed contains
two names equal after case-folding, refreshing twice with identical source
data yields `added = 0` and `updated` equal to the number of feed records on
the second run, and after any number of processed records of the first run,
as well as after the second run, no two entries have equal case-folded names.
(The unamended claim fails when the feed itself repeats a case-folded name:
with `autoflush` disabled both records miss the lookup and are both
inserted.) -/
theorem refresh_idempotent_nodup
    (cs : List ProcessedCountry) (rates : List (String × ℚ))
    (ms1 ms2 : Nat → ℚ) (ts1 ts2 : Nat → Nat) (db : DB)
    (hdb : (db.store.map (fun e => nameFold e.name)).Nodup)
    (hcs : (cs.map (fun c => nameFold c.name)).Nodup) :
    (refresh_countries_data (.ok cs) (.ok rates) ms2 ts2 (.ok ())
        ((refresh_countries_data (.ok cs) (.ok rates) ms1 ts1 (.ok ()) db).1)).2 =
      .ok (cs.length, 0) ∧
    (∀ k, ((((refresh_countries_data (.ok (cs.take k)) (.ok rates) ms1 ts1 (.ok ()) db).1).store.map
        (fun e => nameFold e.name))).Nodup) ∧
    ((((refresh_countries_data (.ok cs) (.ok rates) ms2 ts2 (.ok ())
        ((refresh_countries_data (.ok cs) (.ok rates) ms1 ts1 (.ok ()) db).1)).1).store.map
        (fun e => nameFold e.name)).Nodup) := by
  have hinv0 := mkSession_inv db hdb
  have hnews0 : ∀ c ∈ cs, nameFold c.name ∉
      ((⟨mkSession db, [], 0, 0⟩ : LoopState).news.map (fun row => nameFold row.name)) := by
    intro c _ h
    simp at h
  have hinv1 : SessInv (refreshLoop rates ms1 ts1 0 cs ⟨mkSession db, [], 0, 0⟩) :=
    loop_inv rates ms1 ts1 cs 0 ⟨mkSession db, [], 0, 0⟩ hinv0 hcs hnews0
  have hdb1eq : (refresh_countries_data (.ok cs) (.ok rates) ms1 ts1 (.ok ()) db).1 =
      commitDB db (refreshLoop rates ms1 ts1 0 cs ⟨mkSession db, [], 0, 0⟩) := rfl
  have hdb1nodup : ((commitDB db
      (refreshLoop rates ms1 ts1 0 cs ⟨mkSession db, [], 0, 0⟩)).store.map
      (fun e => nameFold e.name)).Nodup :=
    commit_nodup db _ hinv1
  have hcover : ∀ c ∈ cs, nameFold c.name ∈
      ((commitDB db (refreshLoop rates ms1 ts1 0 cs ⟨mkSession db, [], 0, 0⟩)).store.map
        (fun e => nameFold e.name)) := by
    intro c hc
    rw [commit_store_folds db _ hinv1.1]
    rcases loop_covers rates ms1 ts1 cs 0 ⟨mkSession db, [], 0, 0⟩ c hc with hl | hr
    · apply List.mem_append_left
      rw [loop_sessFolds rates ms1 ts1 cs 0 ⟨mkSession db, [], 0, 0⟩]
      exact hl
    · exact List.mem_append_right _ hr
  have hall2 : ∀ c ∈ cs, nameFold c.name ∈
      ((⟨mkSession (commitDB db (refreshLoop rates ms1 ts1 0 cs ⟨mkSession db, [], 0, 0⟩)),
          [], 0, 0⟩ : LoopState).sess.map (fun se => nameFold se.origName)) := by
    intro c hc
    show nameFold c.name ∈ (mkSession _).map (fun se => nameFold se.origName)
    rw [mkSession_folds]
    exact hcover c hc
  have hfound := loop_all_found rates ms2 ts2 cs 0
    ⟨mkSession (commitDB db (refreshLoop rates ms1 ts1 0 cs ⟨mkSession db, [], 0, 0⟩)),
      [], 0, 0⟩ hall2
  refine ⟨?_, ?_, ?_⟩
  · rw [hdb1eq]
    show Except.ok ((refreshLoop rates ms2 ts2 0 cs
        ⟨mkSession (commitDB db (refreshLoop rates ms1 ts1 0 cs ⟨mkSession db, [], 0, 0⟩)),
          [], 0, 0⟩).updated,
      (refreshLoop rates ms2 ts2 0 cs
        ⟨mkSession (commitDB db (refreshLoop rates ms1 ts1 0 cs ⟨mkSession db, [], 0, 0⟩)),
          [], 0, 0⟩).added) = Except.ok (cs.length, 0)
    rw [hfound.1, hfound.2.1]
    simp
  · intro k
    have hcsk : ((cs.take k).map (fun c => nameFold c.name)).Nodup := by
      rw [List.map_take]
      exact (List.take_sublist _ _).nodup hcs
    have hnewsk : ∀ c ∈ cs.take k, nameFold c.name ∉
        ((⟨mkSession db, [], 0, 0⟩ : LoopState).news.map (fun row => nameFold row.name)) := by
      intro c _ h
      simp at h
    have hinvk : SessInv (refreshLoop rates ms1 ts1 0 (cs.take k) ⟨mkSession db, [], 0, 0⟩) :=
      loop_inv rates ms1 ts1 (cs.take k) 0 ⟨mkSession db, [], 0, 0⟩ hinv0 hcsk hnewsk
    exact commit_nodup db _ hinvk
  · rw [hdb1eq]
    have hinv0' := mkSession_inv
      (commitDB db (refreshLoop rates ms1 ts1 0 cs ⟨mkSession db, [], 0, 0⟩)) hdb1nodup
    have hnews0' : ∀ c ∈ cs, nameFold c.name ∉
        ((⟨mkSession (commitDB db (refreshLoop rates ms1 ts1 0 cs ⟨mkSession db, [], 0, 0⟩)),
            [], 0, 0⟩ : LoopState).news.map (fun row => nameFold row.name)) := by
      intro c _ h
      simp at h
    have hinv2 := loop_inv rates ms2 ts2 cs 0 _ hinv0' hcs hnews0'
    exact commit_nodup _ _ hinv2

/-- C2 witness: a fresh store refreshed twice with a two-record feed of
case-distinct names reports `updated = 2, added = 0` on the second run. -/
theorem refresh_idempotent_nodup_witness :
    (refresh_countries_data
        (.ok [⟨"Nigeria", none, none, 3, none, none⟩, ⟨"Ghana", none, none, 4, none, none⟩])
        (.ok []) (fun _ => 1600) (fun _ => 9) (.ok ())
        ((refresh_countries_data
          (.ok [⟨"Nigeria", none, none, 3, none, none⟩, ⟨"Ghana", none, none, 4, none, none⟩])
          (.ok []) (fun _ => 1500) (fun _ => 5) (.ok ()) ⟨[], 1⟩).1)).2 = .ok (2, 0) :=
  (refresh_idempotent_nodup
    [⟨"Nigeria", none, none, 3, none, none⟩, ⟨"Ghana", none, none, 4, none, none⟩] []
    (fun _ => 1500) (fun _ => 1600) (fun _ => 5) (fun _ => 9) ⟨[], 1⟩
    (by decide) (by decide)).1

/-- C2 counterexample: a feed holding both "Nigeria" and "NIGERIA" over an
empty store ends the refresh with two distinct CatalogEntries (ids 1 and 2)
whose names are equal after case-folding — they do not resolve to one
entry. -/
theorem refresh_idempotent_cex :
    (((refresh_countries_data
        (.ok [⟨"Nigeria", none, none, 0, none, none⟩, ⟨"NIGERIA", none, none, 0, none, none⟩])
        (.ok []) (fun _ => 1500) (fun _ => 0) (.ok ()) ⟨[], 1⟩).1).store.map
        (fun e => (e.id, e.name))) = [(1, "Nigeria"), (2, "NIGERIA")] ∧
    nameFold "Nigeria" = nameFold "NIGERIA" := by
  constructor
  · rfl
  · decide

/-- C3: during refresh, a country whose currency resolves to a positive rate
`r` gets `estimated_gdp = population * m / r` when that value is positive and
null otherwise (`m` being the drawn multiplier in `[1000, 2000)`); a country
with no resolvable rate gets null; and with population 1,000,000 and rate 2
the estimate lies in `[500000000, 1000000000)`. -/
theorem gdp_formula (c : ProcessedCountry) (rates : List (String × ℚ)) (m : ℚ) (now : Nat)
    (hm1 : 1000 ≤ m) (hm2 : m < 2000) :
    (∀ r, resolvedRate c.currency_code rates = some r → 0 < r →
      (_process_country_for_db c rates m now).estimated_gdp =
        if 0 < (c.population : ℚ) * m / r then some ((c.population : ℚ) * m / r) else none) ∧
    (resolvedRate c.currency_code rates = none →
      (_process_country_for_db c rates m now).estimated_gdp = none) ∧
    (c.population = 1000000 → resolvedRate c.currency_code rates = some 2 →
      ∃ g, (_process_country_for_db c rates m now).estimated_gdp = some g ∧
        500000000 ≤ g ∧ g < 1000000000) := by
  refine ⟨?_, ?_, ?_⟩
  · intro r hr hrpos
    unfold _process_country_for_db
    simp only [hr, if_pos hrpos]
  · intro hr
    unfold _process_country_for_db
    simp [hr]
  · intro hpop hr
    have hm0 : (0 : ℚ) < m := by linarith
    unfold _process_country_for_db
    simp only [hr, hpop]
    have hval : ((1000000 : Int) : ℚ) * m / 2 = 500000 * m := by
      push_cast
      ring
    rw [if_pos (show (0 : ℚ) < 2 by norm_num), hval, if_pos (by linarith)]
    exact ⟨500000 * m, rfl, by linarith, by linarith⟩

/-- C3 witness: population 1,000,000, rate table `{"NGN": 2}`, multiplier
1500 — the estimate is defined and lies in the stated interval. -/
theorem gdp_formula_witness :
    ∃ g, (_process_country_for_db ⟨"Nigeria", none, none, 1000000, some "NGN", none⟩
        [("NGN", 2)] 1500 0).estimated_gdp = some g ∧
      500000000 ≤ g ∧ g < 1000000000 :=
  (gdp_formula ⟨"Nigeria", none, none, 1000000, some "NGN", none⟩ [("NGN", 2)] 1500 0
    (by norm_num) (by norm_num)).2.2 rfl (by decide)

/-- C6: the written `estimated_gdp` is non-null exactly when the record's
population is positive and its currency resolved to a positive exchange
rate. -/
theorem gdp_nonnull_iff (c : ProcessedCountry) (rates : List (String × ℚ)) (m : ℚ) (now : Nat)
    (hm1 : 1000 ≤ m) (_hm2 : m < 2000) :
    (_process_country_for_db c rates m now).estimated_gdp ≠ none ↔
      (0 < c.population ∧ ∃ r, resolvedRate c.currency_code rates = some r ∧ 0 < r) := by
  have hm0 : 0 < m := by linarith
  unfold _process_country_for_db
  cases hr : resolvedRate c.currency_code rates with
  | none =>
      simp [hr]
  | some r =>
      by_cases hrpos : 0 < r
      · simp only [hr, if_pos hrpos, ne_eq, Option.some.injEq]
        constructor
        · intro h
          have hgdp : 0 < (c.population : ℚ) * m / r := by
            by_contra hng
            exact h (by simp [if_neg hng])
          have hpm : 0 < (c.population : ℚ) * m := by
            by_contra hng
            push_neg at hng
            have : (c.population : ℚ) * m / r ≤ 0 := div_nonpos_of_nonpos_of_nonneg hng (le_of_lt hrpos)
            linarith
          have hpop : 0 < (c.population : ℚ) := by
            by_contra hng
            push_neg at hng
            nlinarith
          exact ⟨by exact_mod_cast hpop, r, rfl, hrpos⟩
        · rintro ⟨hpop, r', hr', hr'pos⟩
          have hgdp : 0 < (c.population : ℚ) * m / r :=
            div_pos (mul_pos (by exact_mod_cast hpop) hm0) hrpos
          simp [if_pos hgdp]
      · simp only [hr, if_neg hrpos]
        constructor
        · intro h
          exact absurd (by norm_num : ¬ (0 : ℚ) < 0) (fun _ => h (by simp))
        · rintro ⟨_, r', hr', hr'pos⟩
          cases hr'
          exact absurd hr'pos hrpos

/-- C6 witness: positive population with a resolved positive rate gives a
non-null estimate; the equivalence instantiated at a concrete record. -/
theorem gdp_nonnull_iff_witness :
    (_process_country_for_db ⟨"Nigeria", none, none, 1000000, some "NGN", none⟩
        [("NGN", 2)] 1500 0).estimated_gdp ≠ none :=
  (gdp_nonnull_iff ⟨"Nigeria", none, none, 1000000, some "NGN", none⟩ [("NGN", 2)] 1500 0
    (by norm_num) (by norm_num)).mpr ⟨by norm_num, 2, by decide, by norm_num⟩

theorem extract_error_iff (oc : Option CurrencyField) :
    extractCurrencyCode oc = .error () ↔ oc = some .raising := by
  cases oc with
  | none => simp [extractCurrencyCode]
  | some cf =>
      cases cf with
      | arr xs =>
          cases xs with
          | nil => simp [extractCurrencyCode]
          | cons d rest =>
              cases d with
              | obj c => simp [extractCurrencyCode]
              | str s => simp [extractCurrencyCode]
      | scalar s => simp [extractCurrencyCode]
      | raising => simp [extractCurrencyCode]

/-- C4 counterexample: a raw record with no `name` key is not rejected — the
Normalizer keeps it, producing a processed record whose name is the empty
string. -/
theorem missing_name_kept_cex :
    processCountries [⟨none, none, none, none, none, none⟩] =
      [⟨"", none, none, 0, none, none⟩] ∧
    (⟨"", none, none, 0, none, none⟩ : ProcessedCountry).name = "" :=
  ⟨rfl, rfl⟩

/-- C4 (amended): the Normalizer rejects a record only when reading its
currency field raises (a mapping-shaped `currencies` value); a record whose
`name` is absent or empty is kept, normalized with `name = ""` (the
`.get("name", "")` default), and every other record of the list is processed
intact around it. -/
theorem normalizer_drop_behavior (r : RawCountry) :
    (r.currencies = some .raising → _process_country_data r = none ∧
      ∀ xs ys, processCountries (xs ++ r :: ys) =
        processCountries xs ++ processCountries ys) ∧
    (r.currencies ≠ some .raising →
      ∃ p, _process_country_data r = some p ∧ p.name = r.name.getD "" ∧
        ∀ xs ys, processCountries (xs ++ r :: ys) =
          processCountries xs ++ p :: processCountries ys) := by
  constructor
  · intro hr
    have hnone : _process_country_data r = none := by
      unfold _process_country_data
      rw [(extract_error_iff r.currencies).mpr hr]
    refine ⟨hnone, fun xs ys => ?_⟩
    unfold processCountries
    rw [List.filterMap_append, List.filterMap_cons, hnone]
  · intro hr
    cases hc : extractCurrencyCode r.currencies with
    | error u =>
        cases u
        exact absurd ((extract_error_iff r.currencies).mp hc) hr
    | ok cc =>
        have hsome : _process_country_data r =
            some ⟨r.name.getD "", r.capital, r.region, r.population.getD 0, cc, r.flag⟩ := by
          unfold _process_country_data
          rw [hc]
        refine ⟨_, hsome, rfl, fun xs ys => ?_⟩
        unfold processCountries
        rw [List.filterMap_append, List.filterMap_cons, hsome]

/-- C4 witness: the no-name record surrounded by two well-formed records is
kept as an empty-named processed record with both neighbours intact. -/
theorem normalizer_drop_behavior_witness :
    ∃ p, _process_country_data ⟨none, none, none, none, none, none⟩ = some p ∧
      p.name = (none : Option String).getD "" ∧
      ∀ xs ys, processCountries (xs ++ ⟨none, none, none, none, none, none⟩ :: ys) =
        processCountries xs ++ p :: processCountries ys :=
  (normalizer_drop_behavior ⟨none, none, none, none, none, none⟩).2 (by decide)

/-- C5 counterexample: a scalar currency value "EUR" (supplied instead of a
list) is not accepted as the code "EUR" — Python indexes into the string and
keeps only its first character "E". -/
theorem currency_scalar_cex :
    (_process_country_data ⟨some "France", none, none, none, some (.scalar "EUR"), none⟩).map
      (fun p => p.currency_code) = some (some "E") ∧
    (some "E" : Option String) ≠ some "EUR" :=
  ⟨rfl, by decide⟩

/-- C5 (amended): the first element of a currency list is selected — the
`code` field when it is a structured object, the string itself when it is a
bare code — and an empty list or absent field gives a null code; but a single
scalar code supplied instead of a list contributes only its first character
(Python string indexing), and an empty scalar is treated as absent. -/
theorem currency_selection (r : RawCountry) :
    (∀ x xs, r.currencies = some (.arr (.str x :: xs)) →
      ∃ p, _process_country_data r = some p ∧ p.currency_code = some x) ∧
    (∀ c xs, r.currencies = some (.arr (.obj c :: xs)) →
      ∃ p, _process_country_data r = some p ∧ p.currency_code = c) ∧
    (r.currencies = some (.arr []) ∨ r.currencies = none →
      ∃ p, _process_country_data r = some p ∧ p.currency_code = none) ∧
    (∀ s, r.currencies = some (.scalar s) → s ≠ "" →
      ∃ p, _process_country_data r = some p ∧ p.currency_code = some (strIndex0 s)) ∧
    (r.currencies = some (.scalar "") →
      ∃ p, _process_country_data r = some p ∧ p.currency_code = none) := by
  refine ⟨?_, ?_, ?_, ?_, ?_⟩
  · intro x xs h
    exact ⟨_, by unfold _process_country_data; rw [h]; rfl, rfl⟩
  · intro c xs h
    exact ⟨_, by unfold _process_country_data; rw [h]; rfl, rfl⟩
  · rintro (h | h)
    · exact ⟨_, by unfold _process_country_data; rw [h]; rfl, rfl⟩
    · exact ⟨_, by unfold _process_country_data; rw [h]; rfl, rfl⟩
  · intro s h hs
    have hsome : _process_country_data r = some ⟨r.name.getD "", r.capital, r.region,
        r.population.getD 0, some (strIndex0 s), r.flag⟩ := by
      unfold _process_country_data
      rw [h]
      simp [extractCurrencyCode, hs]
    exact ⟨_, hsome, rfl⟩
  · intro h
    exact ⟨_, by unfold _process_country_data; rw [h]; rfl, rfl⟩

/-- C5 witness: a record with currency list `["EUR", "USD"]` yields the code
"EUR", and a scalar "EUR" yields only "E". -/
theorem currency_selection_witness :
    (∃ p, _process_country_data
        ⟨some "X", none, none, none, some (.arr [.str "EUR", .str "USD"]), none⟩ = some p ∧
      p.currency_code = some "EUR") ∧
    (∃ p, _process_country_data
        ⟨some "France", none, none, none, some (.scalar "EUR"), none⟩ = some p ∧
      p.currency_code = some (strIndex0 "EUR")) :=
  ⟨(currency_selection ⟨some "X", none, none, none,
      some (.arr [.str "EUR", .str "USD"]), none⟩).1 "EUR" [.str "USD"] rfl,
   (currency_selection ⟨some "France", none, none, none,
      some (.scalar "EUR"), none⟩).2.2.2.1 "EUR" rfl (by decide)⟩

/-- C8 counterexample: a source code "eur" is kept lowercase — the processed
currency_code is not the uppercase form of the source code. -/
theorem currency_uppercase_cex :
    (_process_country_data ⟨some "France", none, none, none, some (.arr [.str "eur"]), none⟩).map
      (fun p => p.currency_code) = some (some "eur") ∧
    (some "eur" : Option String) ≠ some (pyUpper "eur") :=
  ⟨rfl, by decide⟩

/-- C8 (amended): the currency code is passed through verbatim — the
Normalizer keeps exactly the string found in the source record (no uppercase
normalization), and `_process_country_for_db` writes the normalized record's
code to the row unchanged. -/
theorem currency_code_verbatim (r : RawCountry) (c : ProcessedCountry)
    (rates : List (String × ℚ)) (m : ℚ) (now : Nat) :
    (∀ x xs, r.currencies = some (.arr (.str x :: xs)) →
      ∃ p, _process_country_data r = some p ∧ p.currency_code = some x) ∧
    (∀ cd xs, r.currencies = some (.arr (.obj cd :: xs)) →
      ∃ p, _process_country_data r = some p ∧ p.currency_code = cd) ∧
    (_process_country_for_db c rates m now).currency_code = c.currency_code := by
  refine ⟨?_, ?_, rfl⟩
  · intro x xs h
    exact ⟨_, by unfold _process_country_data; rw [h]; rfl, rfl⟩
  · intro cd xs h
    exact ⟨_, by unfold _process_country_data; rw [h]; rfl, rfl⟩

/-- C8 witness: the lowercase source code "eur" flows through the Normalizer
unchanged. -/
theorem currency_code_verbatim_witness :
    ∃ p, _process_country_data
        ⟨some "France", none, none, none, some (.arr [.str "eur"]), none⟩ = some p ∧
      p.currency_code = some "eur" :=
  (currency_code_verbatim ⟨some "France", none, none, none, some (.arr [.str "eur"]), none⟩
    ⟨"France", none, none, 0, none, none⟩ [] 1500 0).1 "eur" [] rfl

/-- C9 counterexample: updating the stored entry "Nigeria" from a feed record
named "NIGERIA" overwrites the stored name — the identity field is not left
unchanged. -/
theorem update_name_overwritten_cex :
    (_update_country ⟨1, "Nigeria", none, none, 5, none, none, none, none, 10⟩
      ⟨"NIGERIA", none, none, 5, none, none, none, none, 20⟩).name = "NIGERIA" ∧
    ("NIGERIA" : String) ≠ "Nigeria" :=
  ⟨rfl, by decide⟩

/-- C9 (amended): the update overwrites every field carried by the processed
record — capital, region, population, currency_code, exchange_rate,
estimated_gdp, flag_url, the refresh timestamp, and also the stored `name`
(whose case-folded identity the lookup preserves, but whose exact spelling
follows the feed) — while the surrogate `id` is left unchanged. -/
theorem update_overwrites_fields (e : CatalogEntry) (row : CountryRecord) :
    (_update_country e row).id = e.id ∧
    (_update_country e row).name = row.name ∧
    (_update_country e row).capital = row.capital ∧
    (_update_country e row).region = row.region ∧
    (_update_country e row).population = row.population ∧
    (_update_country e row).currency_code = row.currency_code ∧
    (_update_country e row).exchange_rate = row.exchange_rate ∧
    (_update_country e row).estimated_gdp = row.estimated_gdp ∧
    (_update_country e row).flag_url = row.flag_url ∧
    (_update_country e row).last_refreshed_at = row.last_refreshed_at :=
  ⟨rfl, rfl, rfl, rfl, rfl, rfl, rfl, rfl, rfl, rfl⟩

end CountriesApi
